import Mathlib

/-!
# Shallow embedding of the UBA library (GianGuaz256/UBA)

This file embeds the core of the UBA Rust library in Lean 4 and settles a
list of claims about it.  The embedding follows the source files
`src/types.rs`, `src/address.rs`, `src/uba.rs`, `src/encryption.rs` and
`src/nostr_client.rs`:

* `HashMap` fields are modelled as functions into `Option` (lookup/insert
  semantics) or as association lists where insertion order matters;
* external collaborators (BIP32/secp256k1 key derivation, the BIP39
  word-list parser, the ChaCha20Poly1305 AEAD, base64, URL parsing and
  percent-decoding, and the Nostr relay network) are modelled as explicit
  structures of functions passed to the embedded code, mirroring the crate
  boundaries of the source; contract fields on those structures record the
  documented behaviour of the external crates;
* asynchronous store-facing code is modelled by explicit state passing:
  every store-facing entry point returns, next to its result, the list of
  store operations (connect / existence check / publish) it performed, in
  order, together with a marker for local address derivation;
* fallible Rust code returning `Result<T, UbaError>` becomes
  `Except UbaError T`.
-/

/-- Model of `bitcoin::Network` (the four variants used by the library). -/
inductive Network where
  | bitcoin
  | testnet
  | signet
  | regtest
deriving DecidableEq

/-- Model of `types.rs` `AddressType`: the seven supported address families. -/
inductive AddressType where
  | P2PKH
  | P2SH
  | P2WPKH
  | P2TR
  | Lightning
  | Liquid
  | Nostr
deriving DecidableEq

/-- Model of `error.rs` `UbaError` (variants relevant to the embedded code paths). -/
inductive UbaError where
  | InvalidSeed (msg : String)
  | InvalidUbaFormat (msg : String)
  | NostrRelay (msg : String)
  | AddressGeneration (msg : String)
  | Json (msg : String)
  | Network (msg : String)
  | NoteNotFound (msg : String)
  | InvalidRelayUrl (msg : String)
  | Encryption (msg : String)
  | InvalidEncryptionKey (msg : String)
  | InvalidLabel (msg : String)
  | Bip39 (msg : String)
  | HexDecode (msg : String)
  | Timeout
  | Config (msg : String)
  | EventNotFound (msg : String)
  | UpdateValidation (msg : String)
deriving DecidableEq

/-- Model of `types.rs` `UbaConfig`.  The two `HashMap` fields are modelled as
functions into `Option`, matching `HashMap::get`/`insert` semantics. -/
structure UbaConfig where
  network : Network
  encrypt_data : Bool
  encryption_key : Option (List Nat)
  relay_timeout : Nat
  max_addresses_per_type : Nat
  address_counts : AddressType → Option Nat
  custom_relays : Option (List String)
  address_filters : AddressType → Option Bool

/-- Model of `types.rs` `default_public_relays()`. -/
def default_public_relays : List String :=
  ["wss://relay.damus.io", "wss://nos.lol", "wss://relay.snort.social",
   "wss://nostr.wine", "wss://relay.nostr.band", "wss://nostr.mutinywallet.com",
   "wss://relay.primal.net", "wss://relay.nostrati.com",
   "wss://nostr.sethforprivacy.com", "wss://offchain.pub",
   "wss://relay.nostrplebs.com", "wss://purplepag.es"]

/-- Model of `impl Default for UbaConfig` (types.rs). -/
def UbaConfig.default : UbaConfig where
  network := .bitcoin
  encrypt_data := false
  encryption_key := none
  relay_timeout := 10
  max_addresses_per_type := 1
  address_counts := fun _ => none
  custom_relays := none
  address_filters := fun _ => none

/-- Model of `UbaConfig::set_address_count` (types.rs). -/
def UbaConfig.set_address_count (cfg : UbaConfig) (t : AddressType) (count : Nat) :
    UbaConfig :=
  { cfg with address_counts := fun x => if x = t then some count else cfg.address_counts x }

/-- Model of `UbaConfig::get_address_count` (types.rs). -/
def UbaConfig.get_address_count (cfg : UbaConfig) (t : AddressType) : Nat :=
  (cfg.address_counts t).getD cfg.max_addresses_per_type

/-- Model of `UbaConfig::set_bitcoin_l1_counts` (types.rs). -/
def UbaConfig.set_bitcoin_l1_counts (cfg : UbaConfig) (count : Nat) : UbaConfig :=
  (((cfg.set_address_count .P2PKH count).set_address_count .P2SH count).set_address_count
      .P2WPKH count).set_address_count .P2TR count

/-- Model of `UbaConfig::set_all_counts` (types.rs). -/
def UbaConfig.set_all_counts (cfg : UbaConfig) (count : Nat) : UbaConfig :=
  (((cfg.set_bitcoin_l1_counts count).set_address_count .Liquid count).set_address_count
      .Lightning count).set_address_count .Nostr count

/-- Model of `UbaConfig::set_address_type_enabled` (types.rs). -/
def UbaConfig.set_address_type_enabled (cfg : UbaConfig) (t : AddressType) (enabled : Bool) :
    UbaConfig :=
  { cfg with address_filters := fun x => if x = t then some enabled else cfg.address_filters x }

/-- Model of `UbaConfig::is_address_type_enabled` (types.rs): default `true` when absent. -/
def UbaConfig.is_address_type_enabled (cfg : UbaConfig) (t : AddressType) : Bool :=
  (cfg.address_filters t).getD true

/-- The fixed family enumeration used by `get_enabled_address_types` (types.rs). -/
def allAddressTypes : List AddressType :=
  [.P2PKH, .P2SH, .P2WPKH, .P2TR, .Liquid, .Lightning, .Nostr]

/-- Model of `UbaConfig::get_enabled_address_types` (types.rs). -/
def UbaConfig.get_enabled_address_types (cfg : UbaConfig) : List AddressType :=
  allAddressTypes.filter (fun t => cfg.is_address_type_enabled t)

/-- Model of `UbaConfig::get_relay_urls` (types.rs). -/
def UbaConfig.get_relay_urls (cfg : UbaConfig) : List String :=
  cfg.custom_relays.getD default_public_relays

/-- Model of `types.rs` `AddressMetadata`. -/
structure AddressMetadata where
  label : Option String
  description : Option String
  xpub : Option String
  derivation_paths : Option (List String)
deriving DecidableEq

/-- Model of `types.rs` `BitcoinAddresses`.  The `HashMap<AddressType, Vec<String>>`
is modelled as an association list whose entries are created in first-insertion
order by `add_address` (keys are unique for every value built by the public
constructors). -/
structure BitcoinAddresses where
  addresses : List (AddressType × List String)
  metadata : Option AddressMetadata
  created_at : Nat
  version : Nat
deriving DecidableEq

/-- Model of `BitcoinAddresses::new` (types.rs); the `SystemTime::now()` call is an
explicit `now` argument. -/
def BitcoinAddresses.new (now : Nat) : BitcoinAddresses where
  addresses := []
  metadata := none
  created_at := now
  version := 1

/-- Model of `self.addresses.entry(t).or_default().push(a)`: append to the entry of
`t`, creating it when absent. -/
def entryPush : List (AddressType × List String) → AddressType → String →
    List (AddressType × List String)
  | [], t, a => [(t, [a])]
  | (k, v) :: rest, t, a =>
    if k = t then (k, v ++ [a]) :: rest else (k, v) :: entryPush rest t a

/-- Model of `BitcoinAddresses::add_address` (types.rs). -/
def BitcoinAddresses.add_address (b : BitcoinAddresses) (t : AddressType) (a : String) :
    BitcoinAddresses :=
  { b with addresses := entryPush b.addresses t a }

/-- Model of `HashMap::get` on the association list. -/
def lookupType : List (AddressType × List String) → AddressType → Option (List String)
  | [], _ => none
  | (k, v) :: rest, t => if k = t then some v else lookupType rest t

/-- Model of `BitcoinAddresses::get_addresses` (types.rs). -/
def BitcoinAddresses.get_addresses (b : BitcoinAddresses) (t : AddressType) :
    Option (List String) :=
  lookupType b.addresses t

/-- Model of `BitcoinAddresses::get_all_addresses` (types.rs): all addresses as a
flat vector. -/
def BitcoinAddresses.get_all_addresses (b : BitcoinAddresses) : List String :=
  b.addresses.flatMap (fun p => p.2)

/-- Model of `BitcoinAddresses::is_empty` (types.rs): the underlying map is empty. -/
def BitcoinAddresses.is_empty (b : BitcoinAddresses) : Bool :=
  b.addresses.isEmpty

/-- Model of `BitcoinAddresses::len` (types.rs): sum of the per-family list lengths. -/
def BitcoinAddresses.len (b : BitcoinAddresses) : Nat :=
  (b.addresses.map (fun p => p.2.length)).sum

/-- Model of `types.rs` `ParsedUba`. -/
structure ParsedUba where
  nostr_id : String
  label : Option String
deriving DecidableEq

/-! ## Character and hex helpers (hex crate, `char::is_ascii_hexdigit`, `str::trim`) -/

/-- Model of `char::is_ascii_hexdigit`. -/
def isAsciiHexDigit (c : Char) : Bool :=
  ('0' ≤ c ∧ c ≤ '9') ∨ ('a' ≤ c ∧ c ≤ 'f') ∨ ('A' ≤ c ∧ c ≤ 'F')

/-- Model of `char::is_ascii_alphanumeric`. -/
def isAsciiAlphanumeric (c : Char) : Bool :=
  ('0' ≤ c ∧ c ≤ '9') ∨ ('a' ≤ c ∧ c ≤ 'z') ∨ ('A' ≤ c ∧ c ≤ 'Z')

/-- Value of one hex digit (hex crate). -/
def hexVal (c : Char) : Option Nat :=
  if '0' ≤ c ∧ c ≤ '9' then some (c.toNat - 48)
  else if 'a' ≤ c ∧ c ≤ 'f' then some (c.toNat - 87)
  else if 'A' ≤ c ∧ c ≤ 'F' then some (c.toNat - 55)
  else none

/-- Model of `hex::decode`: fails on odd length or on a non-hex character. -/
def hexDecodeChars : List Char → Option (List Nat)
  | [] => some []
  | [_] => none
  | c1 :: c2 :: rest => do
    let h ← hexVal c1
    let l ← hexVal c2
    let r ← hexDecodeChars rest
    pure ((h * 16 + l) :: r)

/-- Model of `str::trim`: drop whitespace from both ends. -/
def rustTrim (s : List Char) : List Char :=
  ((s.dropWhile Char.isWhitespace).reverse.dropWhile Char.isWhitespace).reverse

/-- UTF-8 size of one scalar value (`str::len` counts bytes). -/
def utf8Size (c : Char) : Nat :=
  if c.toNat < 128 then 1
  else if c.toNat < 2048 then 2
  else if c.toNat < 65536 then 3
  else 4

/-- Model of `str::len` of the label: its UTF-8 byte length. -/
def byteLen (s : String) : Nat :=
  (s.toList.map utf8Size).sum

/-! ## Address derivation engine (`address.rs`)

The elliptic-curve and BIP32/BIP39 primitives are external crates
(`bitcoin`, `bip39`, `secp256k1`, `elements`, `nostr`); following the
design boundary they are modelled as an abstract `KeyDerivation` capability
over an abstract master-key type `K`.  Each `render*` field packages, for
one address family, the child-key derivation at the family's fixed path
prefix together with the family-specific address encoding at a derivation
index; the `Except` result captures the fallibility of `derive_priv` and of
the family encoders.  Everything the library itself computes (input
dispatch, hex validation, 32-byte length check, loop structure, error
mapping, collection building) is embedded concretely. -/

structure KeyDerivation (K : Type) where
  /-- Model of `bip39::Mnemonic::from_str` followed by `to_seed("")`:
  `some` seed bytes for a valid mnemonic, `none` otherwise. -/
  mnemonicToSeed : String → Option (List Nat)
  /-- Model of `bitcoin::bip32::Xpriv::new_master`. -/
  newMaster : Network → List Nat → Except String K
  /-- legacy P2PKH rendering at `m/44'/0'/0'/0/i`. -/
  renderP2pkh : K → Network → Nat → Except String String
  /-- wrapped-segwit rendering at `m/49'/0'/0'/0/i`. -/
  renderP2sh : K → Network → Nat → Except String String
  /-- native-segwit rendering at `m/84'/0'/0'/0/i`. -/
  renderP2wpkh : K → Network → Nat → Except String String
  /-- taproot rendering at `m/86'/0'/0'/0/i`. -/
  renderP2tr : K → Network → Nat → Except String String
  /-- Liquid rendering at `m/84'/1776'/0'/0/i` (blinding key internal). -/
  renderLiquid : K → Network → Nat → Except String String
  /-- Lightning node-id rendering at `m/1017'/0'/0'/i`. -/
  renderLightning : K → Network → Nat → Except String String
  /-- Nostr npub rendering at `m/44'/1237'/0'/0/i`. -/
  renderNostr : K → Network → Nat → Except String String

/-- Model of `AddressGenerator::derive_master_key` (address.rs lines 78-97): BIP39
mnemonic first; otherwise `hex::decode(seed_input.trim())?` (whose failure
surfaces as `UbaError::HexDecode` through the `#[from]` conversion), then
the 32-byte check failing with `InvalidSeed`. -/
def derive_master_key {K : Type} (KD : KeyDerivation K) (cfg : UbaConfig)
    (seed_input : String) : Except UbaError K :=
  match KD.mnemonicToSeed seed_input with
  | some seed =>
    match KD.newMaster cfg.network seed with
    | .ok k => .ok k
    | .error e => .error (.AddressGeneration e)
  | none =>
    match hexDecodeChars (rustTrim seed_input.toList) with
    | none => .error (.HexDecode "Invalid character or odd length")
    | some key_bytes =>
      if key_bytes.length ≠ 32 then
        .error (.InvalidSeed "Private key must be 32 bytes")
      else
        match KD.newMaster cfg.network key_bytes with
        | .ok k => .ok k
        | .error e => .error (.AddressGeneration e)

/-- One per-family generation loop of `address.rs` (`for i in 0..count`):
`ChildNumber::from_normal_idx(i)` requires `i < 2^31`; a rendering failure
aborts the whole call with `AddressGeneration`. -/
def genLoop (render : Nat → Except String String) (t : AddressType) :
    List Nat → BitcoinAddresses → Except UbaError BitcoinAddresses
  | [], acc => .ok acc
  | i :: rest, acc =>
    if i < 2 ^ 31 then
      match render i with
      | .ok s => genLoop render t rest (acc.add_address t s)
      | .error e => .error (.AddressGeneration e)
    else .error (.AddressGeneration "Invalid child number")

/-- Model of `AddressGenerator::get_derivation_paths` (address.rs). -/
def get_derivation_paths : List String :=
  ["m/44'/0'/0'/0", "m/49'/0'/0'/0", "m/84'/0'/0'/0", "m/86'/0'/0'/0",
   "m/84'/1776'/0'/0", "m/1017'/0'/0'", "m/44'/1237'/0'/0"]

/-- Model of `AddressGenerator::generate_addresses` (address.rs lines 46-75): derive
the master key, set metadata, then run every family generator in the fixed
source order with that family's configured count.  Note: the generators are
called unconditionally; `is_address_type_enabled` is never consulted. -/
def generate_addresses {K : Type} (KD : KeyDerivation K) (cfg : UbaConfig) (now : Nat)
    (seed_input : String) (label : Option String) : Except UbaError BitcoinAddresses := do
  let master_key ← derive_master_key KD cfg seed_input
  let addresses :=
    { BitcoinAddresses.new now with
      metadata := some
        { label := label
          description := some "UBA generated address collection"
          xpub := none
          derivation_paths := some get_derivation_paths } }
  let addresses ← genLoop (KD.renderP2pkh master_key cfg.network) .P2PKH
      (List.range (cfg.get_address_count .P2PKH)) addresses
  let addresses ← genLoop (KD.renderP2sh master_key cfg.network) .P2SH
      (List.range (cfg.get_address_count .P2SH)) addresses
  let addresses ← genLoop (KD.renderP2wpkh master_key cfg.network) .P2WPKH
      (List.range (cfg.get_address_count .P2WPKH)) addresses
  let addresses ← genLoop (KD.renderP2tr master_key cfg.network) .P2TR
      (List.range (cfg.get_address_count .P2TR)) addresses
  let addresses ← genLoop (KD.renderLiquid master_key cfg.network) .Liquid
      (List.range (cfg.get_address_count .Liquid)) addresses
  let addresses ← genLoop (KD.renderLightning master_key cfg.network) .Lightning
      (List.range (cfg.get_address_count .Lightning)) addresses
  let addresses ← genLoop (KD.renderNostr master_key cfg.network) .Nostr
      (List.range (cfg.get_address_count .Nostr)) addresses
  pure addresses

/-! ## UBA string protocol (`uba.rs`)

`parse_uba` works on the character list of the string; `&` and `=` are
single-byte characters, so byte slicing in the source coincides with
character slicing here.  The `urlencoding::decode` call is an external
crate, passed in as `urlDecode` (`none` models its `Err` case, which the
source maps to `InvalidUbaFormat`). -/

/-- Rust `str::split(c)` on a character list: `"a&&b" ↦ ["a","","b"]`,
`"" ↦ [""]`. -/
def splitOnChar (c : Char) : List Char → List (List Char)
  | [] => [[]]
  | x :: xs =>
    let r := splitOnChar c xs
    if x = c then [] :: r
    else
      match r with
      | [] => [[x]]
      | h :: t => (x :: h) :: t

/-- Model of `parse_query_params` (uba.rs lines 251-270): scan `&`-separated pairs,
return the percent-decoded value of the first `label` key; pairs without
`=` or with another key are skipped; no `label` pair yields `none`. -/
def queryScan (urlDecode : List Char → Option (List Char)) :
    List (List Char) → Except UbaError (Option (List Char))
  | [] => .ok none
  | pair :: rest =>
    match pair.findIdx? (· = '=') with
    | some eq_pos =>
      let key := pair.take eq_pos
      let value := pair.drop (eq_pos + 1)
      if key = "label".toList then
        match urlDecode value with
        | some decoded => .ok (some decoded)
        | none => .error (.InvalidUbaFormat "Invalid URL encoding in label")
      else queryScan urlDecode rest
    | none => queryScan urlDecode rest

/-- Model of `parse_query_params` (uba.rs): split the query string on `&` and scan. -/
def parse_query_params (urlDecode : List Char → Option (List Char))
    (query_string : List Char) : Except UbaError (Option (List Char)) :=
  queryScan urlDecode (splitOnChar '&' query_string)

/-- Model of `validate_nostr_id` (uba.rs lines 273-288): exactly 64 hex characters. -/
def validate_nostr_id (nostr_id : List Char) : Except UbaError Unit :=
  if nostr_id.length ≠ 64 then
    .error (.InvalidUbaFormat "Nostr ID must be 64 characters long")
  else if ¬ nostr_id.all isAsciiHexDigit then
    .error (.InvalidUbaFormat "Nostr ID must be hexadecimal")
  else .ok ()

/-- Model of `parse_uba` (uba.rs lines 216-248) on the character list. -/
def parseUbaChars (urlDecode : List Char → Option (List Char)) (uba : List Char) :
    Except UbaError (List Char × Option (List Char)) :=
  if ¬ "UBA:".toList.isPrefixOf uba then
    .error (.InvalidUbaFormat "UBA string must start with UBA:")
  else
    let content := uba.drop 4
    match content.findIdx? (· = '&') with
    | some query_start =>
      let nostr_id := content.take query_start
      let query_string := content.drop (query_start + 1)
      match parse_query_params urlDecode query_string with
      | .error e => .error e
      | .ok label =>
        match validate_nostr_id nostr_id with
        | .error e => .error e
        | .ok () => .ok (nostr_id, label)
    | none =>
      match validate_nostr_id content with
      | .error e => .error e
      | .ok () => .ok (content, none)

/-- Model of `parse_uba` on strings, packaging the result as `ParsedUba`. -/
def parse_uba (urlDecode : List Char → Option (List Char)) (uba : String) :
    Except UbaError ParsedUba :=
  match parseUbaChars urlDecode uba.toList with
  | .error e => .error e
  | .ok (id, lab) => .ok ⟨String.mk id, lab.map String.mk⟩

/-- The UBA string formatting of `generate_with_config` (uba.rs lines 79-85):
`format!("UBA:{}&label={}", event_id, label)` or `format!("UBA:{}", event_id)`;
the label is interpolated as supplied. -/
def format_uba (event_id : String) (label : Option String) : String :=
  match label with
  | some l => "UBA:" ++ event_id ++ "&label=" ++ l
  | none => "UBA:" ++ event_id

/-- Model of `validate_label` (uba.rs lines 314-334): nonempty, at most 100 bytes,
only ASCII alphanumerics, hyphens and underscores. -/
def validate_label (label : String) : Except UbaError Unit :=
  if label.isEmpty then .error (.InvalidLabel "Label cannot be empty")
  else if byteLen label > 100 then
    .error (.InvalidLabel "Label cannot exceed 100 characters")
  else if ¬ label.toList.all (fun c => isAsciiAlphanumeric c ∨ c = '-' ∨ c = '_') then
    .error (.InvalidLabel
      "Label can only contain alphanumeric characters, hyphens, and underscores")
  else .ok ()

/-! ## Encryption envelope (`encryption.rs`)

The `chacha20poly1305` AEAD, the `base64` codec and Rust's UTF-8 string/byte
conversions are external to the library; they are collected in
`ExternalCrypto` together with their documented round-trip contracts.  The
envelope logic itself — drawing a 12-byte nonce, prepending it, the
`< 12` length check, `split_at(12)`, and the single opaque `Encryption`
error category — is embedded concretely. -/

structure ExternalCrypto where
  /-- Model of `ChaCha20Poly1305::encrypt key nonce plaintext` (ciphertext + tag). -/
  aeadEnc : List Nat → List Nat → List Nat → List Nat
  /-- Model of `ChaCha20Poly1305::decrypt key nonce ciphertext`; `none` on tag
  mismatch or malformed input. -/
  aeadDec : List Nat → List Nat → List Nat → Option (List Nat)
  /-- Model of `base64::engine::general_purpose::STANDARD.encode`. -/
  b64encode : List Nat → String
  /-- Model of `base64::...::STANDARD.decode`; `none` on malformed base64. -/
  b64decode : String → Option (List Nat)
  /-- Model of `str::as_bytes`. -/
  strBytes : String → List Nat
  /-- Model of `String::from_utf8`; `none` on invalid UTF-8. -/
  bytesStr : List Nat → Option String
  /-- AEAD contract: decryption inverts encryption under the same key/nonce. -/
  aead_dec_enc : ∀ k n p, aeadDec k n (aeadEnc k n p) = some p
  /-- base64 contract: decoding inverts encoding. -/
  b64_dec_enc : ∀ bs, b64decode (b64encode bs) = some bs
  /-- UTF-8 contract: a string's bytes decode back to the string. -/
  utf8_dec_enc : ∀ s, bytesStr (strBytes s) = some s

/-- Model of `UbaEncryption::encrypt` (encryption.rs lines 50-68); the random
12-byte nonce drawn from `OsRng` is an explicit argument. -/
def UbaEncryption.encrypt (E : ExternalCrypto) (key : List Nat) (nonce : List Nat)
    (data : String) : Except UbaError String :=
  let ciphertext := E.aeadEnc key nonce (E.strBytes data)
  .ok (E.b64encode (nonce ++ ciphertext))

/-- Model of `UbaEncryption::decrypt` (encryption.rs lines 78-102). -/
def UbaEncryption.decrypt (E : ExternalCrypto) (key : List Nat)
    (encrypted_data : String) : Except UbaError String :=
  match E.b64decode encrypted_data with
  | none => .error (.Encryption "Failed to decode base64")
  | some combined =>
    if combined.length < 12 then
      .error (.Encryption "Encrypted data too short, missing nonce")
    else
      let nonce_bytes := combined.take 12
      let ciphertext := combined.drop 12
      match E.aeadDec key nonce_bytes ciphertext with
      | none => .error (.Encryption "Failed to decrypt")
      | some plaintext =>
        match E.bytesStr plaintext with
        | none => .error (.Encryption "Invalid UTF-8 in plaintext")
        | some s => .ok s

/-- Model of `encrypt_if_enabled` (encryption.rs lines 161-169). -/
def encrypt_if_enabled (E : ExternalCrypto) (nonce : List Nat) (json_data : String)
    (encryption_key : Option (List Nat)) : Except UbaError String :=
  match encryption_key with
  | some key => UbaEncryption.encrypt E key nonce json_data
  | none => .ok json_data

/-- Model of `decrypt_if_needed` (encryption.rs lines 179-188): with a key, try to
decrypt and fall back to the original data on any failure. -/
def decrypt_if_needed (E : ExternalCrypto) (data : String)
    (encryption_key : Option (List Nat)) : Except UbaError String :=
  match encryption_key with
  | some key =>
    match UbaEncryption.decrypt E key data with
    | .ok plaintext => .ok plaintext
    | .error _ => .ok data
  | none => .ok data

/-! ## Store-facing flows (`uba.rs`, `nostr_client.rs`)

The Nostr relay network is an external collaborator; `RelayEnv` fixes one
execution's observable environment (URL parse results, connection outcome,
the existence-check answer, the publish outcome, JSON serialization and the
update-path nonce).  Each embedded entry point returns its result together
with the ordered list of operations it performed: `derive` marks local
address generation, while `connect`, `existsCheck` and `publish` are the
store operations. -/

inductive StoreOp where
  | derive
  | connect
  | existsCheck
  | publish
deriving DecidableEq

structure RelayEnv where
  /-- Model of `url::Url::parse(u)` followed by `.scheme()`: `none` on parse error. -/
  urlScheme : String → Option String
  /-- outcome of `connect_to_relays` (`add_relay` + `connect`). -/
  connectResult : Except UbaError Unit
  /-- outcome of the `get_events_of` existence query: `ok true` when the
  event was found, `ok false` when no relay returned it, `error` on
  relay/timeout failure. -/
  eventFound : Except UbaError Bool
  /-- outcome of `send_event` (the published event id in hex on success). -/
  publishResult : Except UbaError String
  /-- Model of `serde_json::to_string` of a collection (assumed total, as it is for
  this data type). -/
  serializeJson : BitcoinAddresses → String
  /-- the 12-byte nonce `OsRng` would draw if encryption is used. -/
  nonce : List Nat

/-- Model of `checkUrls`: the per-URL loop of `validate_relay_urls` (uba.rs lines
291-311). -/
def checkUrls (env : RelayEnv) : List String → Except UbaError Unit
  | [] => .ok ()
  | u :: rest =>
    match env.urlScheme u with
    | none => .error (.InvalidRelayUrl u)
    | some scheme =>
      if scheme ≠ "ws" ∧ scheme ≠ "wss" then
        .error (.InvalidRelayUrl ("Relay URL must use ws:// or wss:// scheme: " ++ u))
      else checkUrls env rest

/-- Model of `validate_relay_urls` (uba.rs): nonempty, every URL parses with a
`ws`/`wss` scheme. -/
def validate_relay_urls (env : RelayEnv) (relay_urls : List String) :
    Except UbaError Unit :=
  if relay_urls.isEmpty then
    .error (.Config "At least one relay URL is required")
  else checkUrls env relay_urls

/-- Model of `generate_nostr_keys_from_seed` (nostr_client.rs lines 446-466): a
64-character input is hex-decoded, anything else must be a valid mnemonic;
hashing and key construction are external and modelled as succeeding. -/
def generate_nostr_keys_from_seed {K : Type} (KD : KeyDerivation K) (seed : String) :
    Except UbaError Unit :=
  if seed.length = 64 then
    match hexDecodeChars seed.toList with
    | none => .error (.HexDecode "Invalid character or odd length")
    | some _ => .ok ()
  else
    match KD.mnemonicToSeed seed with
    | none => .error (.Bip39 "invalid mnemonic")
    | some _ => .ok ()

/-- Model of `NostrClient::validate_address_update` (nostr_client.rs lines 295-324),
identical to the inline checks of `update_uba_with_addresses`. -/
def validate_address_update (addresses : BitcoinAddresses) : Except UbaError Unit :=
  if addresses.is_empty then
    .error (.UpdateValidation "Updated addresses collection cannot be empty")
  else if ¬ addresses.addresses.any (fun p => !p.2.isEmpty) then
    .error (.UpdateValidation "At least one address type must contain addresses")
  else if addresses.addresses.any (fun p => p.2.any (fun a => a.trim.isEmpty)) then
    .error (.UpdateValidation "Empty address found")
  else .ok ()

/-- Model of `EventId::from_hex`: 64 hex characters. -/
def validEventIdHex (s : String) : Bool :=
  s.toList.length = 64 ∧ s.toList.all isAsciiHexDigit

/-- Model of `NostrClient::update_addresses` (nostr_client.rs lines 185-261): verify
the original event exists on the relays, only then validate the new
collection, serialize, optionally encrypt, and publish with the
`replaces` tag.  The accumulated operation trace is threaded through. -/
def update_addresses (env : RelayEnv) (E : ExternalCrypto) (original_event_id : String)
    (updated_addresses : BitcoinAddresses) (encryption_key : Option (List Nat))
    (trace : List StoreOp) : Except UbaError String × List StoreOp :=
  if ¬ validEventIdHex original_event_id then
    (.error (.InvalidUbaFormat "Invalid event ID"), trace)
  else
    let trace := trace ++ [.existsCheck]
    match env.eventFound with
    | .error e => (.error e, trace)
    | .ok false =>
      (.error (.EventNotFound ("Event with ID " ++ original_event_id ++ " not found")), trace)
    | .ok true =>
      match validate_address_update updated_addresses with
      | .error e => (.error e, trace)
      | .ok () =>
        match encrypt_if_enabled E env.nonce (env.serializeJson updated_addresses)
            encryption_key with
        | .error e => (.error e, trace)
        | .ok _content =>
          let trace := trace ++ [.publish]
          match env.publishResult with
          | .error e => (.error e, trace)
          | .ok event_id => (.ok event_id, trace)

/-- Model of `update_uba` (uba.rs lines 369-414): re-derive the collection from the
seed (`now` timestamps the derivation, `now2` the `created_at` rewrite),
then connect and delegate to `update_addresses`. -/
def update_uba {K : Type} (env : RelayEnv) (E : ExternalCrypto) (KD : KeyDerivation K)
    (nostr_event_id : String) (seed : String) (relay_urls : List String)
    (cfg : UbaConfig) (now now2 : Nat) : Except UbaError String × List StoreOp :=
  let final_relay_urls := if relay_urls.isEmpty then cfg.get_relay_urls else relay_urls
  match validate_relay_urls env final_relay_urls with
  | .error e => (.error e, [])
  | .ok () =>
  match validate_nostr_id nostr_event_id.toList with
  | .error e => (.error e, [])
  | .ok () =>
  let trace := [StoreOp.derive]
  match generate_addresses KD cfg now seed none with
  | .error e => (.error e, trace)
  | .ok generated =>
    let updated_addresses := { generated with created_at := now2 }
    match generate_nostr_keys_from_seed KD seed with
    | .error e => (.error e, trace)
    | .ok () =>
      let trace := trace ++ [.connect]
      match env.connectResult with
      | .error e => (.error e, trace)
      | .ok () =>
        match update_addresses env E nostr_event_id updated_addresses
            cfg.encryption_key trace with
        | (.error e, tr) => (.error e, tr)
        | (.ok new_event_id, tr) => (.ok ("UBA:" ++ new_event_id), tr)

/-- Model of `update_uba_with_addresses` (uba.rs lines 429-490): validate the relay
list, the event id and the supplied collection before any store operation,
then connect and delegate to `update_addresses`. -/
def update_uba_with_addresses (env : RelayEnv) (E : ExternalCrypto)
    (nostr_event_id : String) (updated_addresses : BitcoinAddresses)
    (relay_urls : List String) (cfg : UbaConfig) :
    Except UbaError String × List StoreOp :=
  let final_relay_urls := if relay_urls.isEmpty then cfg.get_relay_urls else relay_urls
  match validate_relay_urls env final_relay_urls with
  | .error e => (.error e, [])
  | .ok () =>
  match validate_nostr_id nostr_event_id.toList with
  | .error e => (.error e, [])
  | .ok () =>
  if updated_addresses.is_empty then
    (.error (.UpdateValidation "Updated addresses collection cannot be empty"), [])
  else if ¬ updated_addresses.addresses.any (fun p => !p.2.isEmpty) then
    (.error (.UpdateValidation "At least one address type must contain addresses"), [])
  else if updated_addresses.addresses.any (fun p => p.2.any (fun a => a.trim.isEmpty)) then
    (.error (.UpdateValidation "Empty address found"), [])
  else
    let trace := [StoreOp.connect]
    match env.connectResult with
    | .error e => (.error e, trace)
    | .ok () =>
      match update_addresses env E nostr_event_id updated_addresses
          cfg.encryption_key trace with
      | (.error e, tr) => (.error e, tr)
      | (.ok new_event_id, tr) => (.ok ("UBA:" ++ new_event_id), tr)

/-- Model of `generate_with_config` (uba.rs lines 40-86): validate relays and label,
derive the collection, build deterministic Nostr keys, connect, publish
with optional encryption, and format the UBA string with the raw label. -/
def generate_with_config {K : Type} (env : RelayEnv) (E : ExternalCrypto)
    (KD : KeyDerivation K) (seed : String) (label : Option String)
    (relay_urls : List String) (cfg : UbaConfig) (now : Nat) :
    Except UbaError String × List StoreOp :=
  let final_relay_urls := if relay_urls.isEmpty then cfg.get_relay_urls else relay_urls
  match validate_relay_urls env final_relay_urls with
  | .error e => (.error e, [])
  | .ok () =>
  match (match label with | some l => validate_label l | none => .ok ()) with
  | .error e => (.error e, [])
  | .ok () =>
  let trace := [StoreOp.derive]
  match generate_addresses KD cfg now seed label with
  | .error e => (.error e, trace)
  | .ok addresses =>
    match generate_nostr_keys_from_seed KD seed with
    | .error e => (.error e, trace)
    | .ok () =>
      let trace := trace ++ [.connect]
      match env.connectResult with
      | .error e => (.error e, trace)
      | .ok () =>
        match encrypt_if_enabled E env.nonce (env.serializeJson addresses)
            cfg.encryption_key with
        | .error e => (.error e, trace)
        | .ok _content =>
          let trace := trace ++ [.publish]
          match env.publishResult with
          | .error e => (.error e, trace)
          | .ok event_id => (.ok (format_uba event_id label), trace)

/-! ## Specification-side predicates and reachability -/

/-- Collections reachable through the public constructors and mutators
(`new`, `add_address`) of `BitcoinAddresses`. -/
inductive Reachable : BitcoinAddresses → Prop where
  | new (now : Nat) : Reachable (BitcoinAddresses.new now)
  | add (b : BitcoinAddresses) (t : AddressType) (a : String) :
      Reachable b → Reachable (b.add_address t a)

/-- The spec's invalid outgoing collections for an update: zero families,
or every family's list empty, or some address empty/whitespace-only. -/
def badCollection (a : BitcoinAddresses) : Prop :=
  a.addresses = [] ∨ (∀ p ∈ a.addresses, p.2 = ([] : List String)) ∨
    (∃ p ∈ a.addresses, ∃ s ∈ p.2, s.trim = "")

/-- The spec's invalid labels: empty, longer than 100 characters, or
containing a character outside ASCII alphanumerics, hyphen, underscore. -/
def badLabel (l : String) : Prop :=
  l.toList = [] ∨ 100 < l.toList.length ∨
    ∃ c ∈ l.toList, ¬ (isAsciiAlphanumeric c ∨ c = '-' ∨ c = '_')

/-- The identifier segment of a UBA string: the text after the `UBA:`
prefix and before the first `&`. -/
def idSegment (uba : String) : List Char :=
  (uba.toList.drop 4).takeWhile (· ≠ '&')

/-- The `&`-separated query pairs of a UBA string (empty when no `&`
follows the identifier segment). -/
def queryPairs (uba : String) : List (List Char) :=
  match (uba.toList.drop 4).dropWhile (· ≠ '&') with
  | [] => []
  | _ :: qs => splitOnChar '&' qs

/-- The value of the first `label` query pair, if any. -/
def firstLabelValue : List (List Char) → Option (List Char)
  | [] => none
  | pair :: rest =>
    match pair.findIdx? (· = '=') with
    | some i =>
      if pair.take i = "label".toList then some (pair.drop (i + 1))
      else firstLabelValue rest
    | none => firstLabelValue rest

/-! ## Concrete sample instantiations of the external collaborators

These instantiate the abstract crate boundaries on concrete, contract-
satisfying functions so that the embedded code can be evaluated on
concrete inputs.  `sampleKD` treats the single string `"mn"` as the valid
mnemonic; `sampleCrypto` uses an identity AEAD and a unary byte codec in
place of base64. -/

def sampleKD : KeyDerivation Unit where
  mnemonicToSeed := fun s => if s = "mn" then some (List.replicate 64 0) else none
  newMaster := fun _ _ => .ok ()
  renderP2pkh := fun _ _ _ => .ok "addr"
  renderP2sh := fun _ _ _ => .ok "addr"
  renderP2wpkh := fun _ _ _ => .ok "addr"
  renderP2tr := fun _ _ _ => .ok "addr"
  renderLiquid := fun _ _ _ => .ok "addr"
  renderLightning := fun _ _ _ => .ok "addr"
  renderNostr := fun _ _ _ => .ok "addr"

/-- Unary byte-list encoder: each byte `n` becomes `n` copies of `a`
followed by one `b`. -/
def unaryEnc (bs : List Nat) : List Char :=
  bs.flatMap (fun n => List.replicate n 'a' ++ ['b'])

/-- Inverse of `unaryEnc`. -/
def unaryDec : List Char → Option (List Nat)
  | [] => some []
  | c :: r =>
    if c = 'b' then (unaryDec r).map (fun ns => 0 :: ns)
    else if c = 'a' then
      match unaryDec r with
      | some (n :: ns) => some ((n + 1) :: ns)
      | _ => none
    else none

def sampleCrypto : ExternalCrypto where
  aeadEnc := fun _ _ p => p
  aeadDec := fun _ _ c => some c
  b64encode := fun bs => String.mk (unaryEnc bs)
  b64decode := fun s => unaryDec s.toList
  strBytes := fun s => s.toList.map Char.toNat
  bytesStr := fun bs => some (String.mk (bs.map Char.ofNat))
  aead_dec_enc := fun _ _ _ => rfl
  b64_dec_enc := by
    have aux : ∀ (n : Nat) (l : List Char),
        unaryDec (List.replicate n 'a' ++ 'b' :: l) =
          (unaryDec l).map (fun ns => n :: ns) := by
      intro n
      induction n with
      | zero =>
        intro l
        simp [unaryDec]
      | succ m ih =>
        intro l
        have step : unaryDec (List.replicate (m + 1) 'a' ++ 'b' :: l) =
            match unaryDec (List.replicate m 'a' ++ 'b' :: l) with
            | some (n :: ns) => some ((n + 1) :: ns)
            | _ => none := by
          simp [List.replicate_succ, unaryDec]
        rw [step, ih l]
        cases unaryDec l <;> rfl
    intro bs
    induction bs with
    | nil => rfl
    | cons n rest ih =>
      show unaryDec ((String.mk (unaryEnc (n :: rest))).toList) = some (n :: rest)
      show unaryDec (unaryEnc (n :: rest)) = some (n :: rest)
      have : unaryEnc (n :: rest) = List.replicate n 'a' ++ 'b' :: unaryEnc rest := by
        simp [unaryEnc]
      rw [this, aux]
      have ihr : unaryDec (unaryEnc rest) = some rest := ih
      rw [ihr]
      rfl
  utf8_dec_enc := by
    intro s
    show some (String.mk ((s.toList.map Char.toNat).map Char.ofNat)) = some s
    rw [List.map_map]
    have : (Char.ofNat ∘ Char.toNat) = id := by
      funext c
      exact Char.ofNat_toNat c
    rw [this, List.map_id]
    rfl

def sampleEnv : RelayEnv where
  urlScheme := fun _ => some "wss"
  connectResult := .ok ()
  eventFound := .ok true
  publishResult := .ok "1234567890abcdef1234567890abcdef1234567890abcdef1234567890abcdef"
  serializeJson := fun _ => "{}"
  nonce := List.replicate 12 0

/-- A sample percent-decoder: the identity on already-decoded input,
matching `urlencoding::decode` on percent-free ASCII strings. -/
def sampleDecode (v : List Char) : Option (List Char) := some v

/-- Time-equivariance of a collection transformer: rewriting `created_at`
commutes with the transformer. -/
def TimeEquiv (F : BitcoinAddresses → Except UbaError BitcoinAddresses) : Prop :=
  ∀ b ts, F { b with created_at := ts } =
    (F b).map (fun x => { x with created_at := ts })

/-! ## Theorems -/

theorem entryPush_preserves_nonempty (l : List (AddressType × List String))
    (t : AddressType) (a : String) (h : ∀ p ∈ l, p.2 ≠ ([] : List String)) :
    ∀ p ∈ entryPush l t a, p.2 ≠ ([] : List String) := by
  induction l with
  | nil =>
    intro p hp
    simp [entryPush] at hp
    simp [hp]
  | cons q rest ih =>
    intro p hp
    obtain ⟨k, v⟩ := q
    by_cases hk : k = t
    · simp [entryPush, hk] at hp
      rcases hp with h1 | h2
      · simp [h1]
      · exact h p (List.mem_cons_of_mem _ h2)
    · simp [entryPush, hk] at hp
      rcases hp with h1 | h2
      · rw [h1]
        exact h (k, v) (List.mem_cons_self _ _)
      · exact ih (fun q hq => h q (List.mem_cons_of_mem _ hq)) p h2

theorem reachable_lists_nonempty (b : BitcoinAddresses) (h : Reachable b) :
    ∀ p ∈ b.addresses, p.2 ≠ ([] : List String) := by
  induction h with
  | new now => intro p hp; simp [BitcoinAddresses.new] at hp
  | add b t a _ ih => exact entryPush_preserves_nonempty b.addresses t a ih

theorem flatMap_length_eq_sum (l : List (AddressType × List String)) :
    (l.flatMap (fun p => p.2)).length = (l.map (fun p => p.2.length)).sum := by
  induction l with
  | nil => rfl
  | cons q rest ih => simp [List.flatMap_cons, ih]

/-- C9: every `BitcoinAddresses` value reachable through `new` and
`add_address` has total length (`len`) equal to the sum of the per-family
list lengths (the length of the flattened `get_all_addresses` vector), and
`is_empty` holds exactly when that total length is zero. -/
theorem c9_collection_invariant (b : BitcoinAddresses) (h : Reachable b) :
    b.len = b.get_all_addresses.length ∧ (b.is_empty = true ↔ b.len = 0) := by
  constructor
  · rw [BitcoinAddresses.len, BitcoinAddresses.get_all_addresses,
      flatMap_length_eq_sum]
  · have hne := reachable_lists_nonempty b h
    cases hl : b.addresses with
    | nil => simp [BitcoinAddresses.is_empty, BitcoinAddresses.len, hl]
    | cons q rest =>
      have hq : q.2 ≠ [] := hne q (by rw [hl]; exact List.mem_cons_self _ _)
      have hqlen : 0 < q.2.length := List.length_pos.mpr hq
      have h1 : b.is_empty = false := by simp [BitcoinAddresses.is_empty, hl]
      have h2 : b.len ≠ 0 := by
        rw [BitcoinAddresses.len, hl]
        simp only [List.map_cons, List.sum_cons]
        omega
      rw [h1]
      exact iff_of_false (by simp) h2

theorem c9_witness :
    Reachable ((BitcoinAddresses.new 0).add_address .P2PKH "1abc") ∧
    ((BitcoinAddresses.new 0).add_address .P2PKH "1abc").len =
      ((BitcoinAddresses.new 0).add_address .P2PKH "1abc").get_all_addresses.length ∧
    (((BitcoinAddresses.new 0).add_address .P2PKH "1abc").is_empty = true ↔
      ((BitcoinAddresses.new 0).add_address .P2PKH "1abc").len = 0) := by
  have hr : Reachable ((BitcoinAddresses.new 0).add_address .P2PKH "1abc") :=
    Reachable.add _ _ _ (Reachable.new 0)
  exact ⟨hr, c9_collection_invariant _ hr⟩

/-- C8: `encrypt_if_enabled` and `decrypt_if_needed` are pass-through
without a key; with a key, `decrypt_if_needed` returns the decrypted
plaintext when decryption succeeds and otherwise the original input, and it
never returns an error. -/
theorem c8_passthrough (E : ExternalCrypto) (nonce : List Nat) (data : String)
    (key : List Nat) (okey : Option (List Nat)) :
    encrypt_if_enabled E nonce data none = .ok data ∧
    decrypt_if_needed E data none = .ok data ∧
    (∀ p, UbaEncryption.decrypt E key data = .ok p →
      decrypt_if_needed E data (some key) = .ok p) ∧
    (∀ e, UbaEncryption.decrypt E key data = .error e →
      decrypt_if_needed E data (some key) = .ok data) ∧
    ∃ r, decrypt_if_needed E data okey = .ok r := by
  refine ⟨rfl, rfl, ?_, ?_, ?_⟩
  · intro p hp
    simp [decrypt_if_needed, hp]
  · intro e he
    simp [decrypt_if_needed, he]
  · cases okey with
    | none => exact ⟨data, rfl⟩
    | some k =>
      cases hd : UbaEncryption.decrypt E k data with
      | ok p => exact ⟨p, by simp [decrypt_if_needed, hd]⟩
      | error e => exact ⟨data, by simp [decrypt_if_needed, hd]⟩

theorem c8_witness :
    decrypt_if_needed sampleCrypto "payload" none = .ok "payload" :=
  (c8_passthrough sampleCrypto [] "payload" [] none).2.1

/-- C7: the encryption envelope round-trips: for a 32-byte key and a
12-byte nonce, decrypting the encryption of any string returns it.  The
wire value is `base64(nonce ++ ciphertext_with_tag)`. -/
theorem c7_encryption_roundtrip (E : ExternalCrypto) (key nonce : List Nat)
    (s : String) (hk : key.length = 32) (hn : nonce.length = 12) :
    (UbaEncryption.encrypt E key nonce s).bind (UbaEncryption.decrypt E key) =
      .ok s := by
  show UbaEncryption.decrypt E key
      (E.b64encode (nonce ++ E.aeadEnc key nonce (E.strBytes s))) = .ok s
  have htake : (nonce ++ E.aeadEnc key nonce (E.strBytes s)).take 12 = nonce := by
    conv => lhs; rw [← hn]
    exact List.take_left _ _
  have hdrop : (nonce ++ E.aeadEnc key nonce (E.strBytes s)).drop 12 =
      E.aeadEnc key nonce (E.strBytes s) := by
    conv => lhs; rw [← hn]
    exact List.drop_left _ _
  simp only [UbaEncryption.decrypt, E.b64_dec_enc]
  rw [if_neg (by rw [List.length_append, hn]; omega)]
  simp only [htake, hdrop, E.aead_dec_enc, E.utf8_dec_enc]

theorem c7_witness :
    (List.replicate 32 7 : List Nat).length = 32 ∧
    (List.replicate 12 0 : List Nat).length = 12 ∧
    (UbaEncryption.encrypt sampleCrypto (List.replicate 32 7) (List.replicate 12 0)
        "hello").bind
      (UbaEncryption.decrypt sampleCrypto (List.replicate 32 7)) = .ok "hello" :=
  ⟨by decide, by decide,
    c7_encryption_roundtrip sampleCrypto _ _ "hello" (by decide) (by decide)⟩

theorem timeEquiv_bind {F : BitcoinAddresses → Except UbaError BitcoinAddresses}
    {G : BitcoinAddresses → Except UbaError BitcoinAddresses}
    (hF : TimeEquiv F) (hG : TimeEquiv G) :
    TimeEquiv (fun b => (F b).bind G) := by
  intro b ts
  simp only []
  rw [hF]
  cases h : F b with
  | error e => rfl
  | ok v =>
    show G { v with created_at := ts } = ((Except.ok v).bind G).map _
    rw [hG]
    rfl

theorem timeEquiv_pure : TimeEquiv (fun b => Except.ok b) := by
  intro b ts
  rfl

theorem genLoop_timeEquiv (r : Nat → Except String String) (t : AddressType)
    (l : List Nat) : TimeEquiv (genLoop r t l) := by
  induction l with
  | nil => intro b ts; rfl
  | cons i rest ih =>
    intro b ts
    simp only [genLoop]
    by_cases hi : i < 2 ^ 31
    · rw [if_pos hi, if_pos hi]
      cases hr : r i with
      | ok s => exact ih (b.add_address t s) ts
      | error e => rfl
    · rw [if_neg hi, if_neg hi]
      rfl

theorem generate_addresses_time {K : Type} (KD : KeyDerivation K) (cfg : UbaConfig)
    (s : String) (lab : Option String) (t1 t2 : Nat) :
    generate_addresses KD cfg t1 s lab =
      (generate_addresses KD cfg t2 s lab).map
        (fun b => { b with created_at := t1 }) := by
  cases hd : derive_master_key KD cfg s with
  | error e =>
    simp only [generate_addresses]
    rw [hd]
    rfl
  | ok mk =>
    have hchain : TimeEquiv (fun b =>
        (genLoop (KD.renderP2pkh mk cfg.network) .P2PKH
            (List.range (cfg.get_address_count .P2PKH)) b).bind (fun a1 =>
        (genLoop (KD.renderP2sh mk cfg.network) .P2SH
            (List.range (cfg.get_address_count .P2SH)) a1).bind (fun a2 =>
        (genLoop (KD.renderP2wpkh mk cfg.network) .P2WPKH
            (List.range (cfg.get_address_count .P2WPKH)) a2).bind (fun a3 =>
        (genLoop (KD.renderP2tr mk cfg.network) .P2TR
            (List.range (cfg.get_address_count .P2TR)) a3).bind (fun a4 =>
        (genLoop (KD.renderLiquid mk cfg.network) .Liquid
            (List.range (cfg.get_address_count .Liquid)) a4).bind (fun a5 =>
        (genLoop (KD.renderLightning mk cfg.network) .Lightning
            (List.range (cfg.get_address_count .Lightning)) a5).bind (fun a6 =>
        (genLoop (KD.renderNostr mk cfg.network) .Nostr
            (List.range (cfg.get_address_count .Nostr)) a6).bind
          (fun a7 => Except.ok a7)))))))) := by
      refine timeEquiv_bind (genLoop_timeEquiv _ _ _) ?_
      refine timeEquiv_bind (genLoop_timeEquiv _ _ _) ?_
      refine timeEquiv_bind (genLoop_timeEquiv _ _ _) ?_
      refine timeEquiv_bind (genLoop_timeEquiv _ _ _) ?_
      refine timeEquiv_bind (genLoop_timeEquiv _ _ _) ?_
      refine timeEquiv_bind (genLoop_timeEquiv _ _ _) ?_
      exact timeEquiv_bind (genLoop_timeEquiv _ _ _) timeEquiv_pure
    have gen_eq : ∀ now : Nat,
        generate_addresses KD cfg now s lab =
          (genLoop (KD.renderP2pkh mk cfg.network) .P2PKH
              (List.range (cfg.get_address_count .P2PKH))
              { BitcoinAddresses.new now with
                metadata := some
                  { label := lab
                    description := some "UBA generated address collection"
                    xpub := none
                    derivation_paths := some get_derivation_paths } }).bind (fun a1 =>
          (genLoop (KD.renderP2sh mk cfg.network) .P2SH
              (List.range (cfg.get_address_count .P2SH)) a1).bind (fun a2 =>
          (genLoop (KD.renderP2wpkh mk cfg.network) .P2WPKH
              (List.range (cfg.get_address_count .P2WPKH)) a2).bind (fun a3 =>
          (genLoop (KD.renderP2tr mk cfg.network) .P2TR
              (List.range (cfg.get_address_count .P2TR)) a3).bind (fun a4 =>
          (genLoop (KD.renderLiquid mk cfg.network) .Liquid
              (List.range (cfg.get_address_count .Liquid)) a4).bind (fun a5 =>
          (genLoop (KD.renderLightning mk cfg.network) .Lightning
              (List.range (cfg.get_address_count .Lightning)) a5).bind (fun a6 =>
          (genLoop (KD.renderNostr mk cfg.network) .Nostr
              (List.range (cfg.get_address_count .Nostr)) a6).bind
            (fun a7 => Except.ok a7))))))) := by
      intro now
      simp only [generate_addresses]
      rw [hd]
      rfl
    rw [gen_eq t1, gen_eq t2]
    have hstart :
        ({ BitcoinAddresses.new t1 with
            metadata := some
              { label := lab
                description := some "UBA generated address collection"
                xpub := none
                derivation_paths := some get_derivation_paths } } :
          BitcoinAddresses) =
        { ({ BitcoinAddresses.new t2 with
            metadata := some
              { label := lab
                description := some "UBA generated address collection"
                xpub := none
                derivation_paths := some get_derivation_paths } } :
          BitcoinAddresses) with created_at := t1 } := rfl
    rw [hstart]
    exact hchain _ t1

/-- C4: address derivation is deterministic.  Two runs of
`generate_addresses` with the same seed, label, configuration and key-
derivation backend produce identical per-family address maps (and agree on
success/failure), whatever the two creation timestamps are. -/
theorem c4_derivation_deterministic {K : Type} (KD : KeyDerivation K)
    (cfg : UbaConfig) (s : String) (lab : Option String) (t1 t2 : Nat) :
    (generate_addresses KD cfg t1 s lab).map (fun b => b.addresses) =
      (generate_addresses KD cfg t2 s lab).map (fun b => b.addresses) := by
  rw [generate_addresses_time KD cfg s lab t1 t2]
  cases generate_addresses KD cfg t2 s lab <;> rfl

/-- C1: evidence against the claim, evaluated on the code.  With the
default configuration and Lightning disabled, `get_enabled_address_types`
drops Lightning as claimed, but the collection returned by
`generate_addresses` still contains a Lightning entry with one address:
the generators in address.rs never consult `is_address_type_enabled`, so
the repository's own test `test_update_uba_address_generation_with_filtering`
(uba.rs) fails on this code. -/
theorem c1_disabled_family_still_generated :
    (UbaConfig.default.set_address_type_enabled .Lightning false).get_enabled_address_types =
      [.P2PKH, .P2SH, .P2WPKH, .P2TR, .Liquid, .Nostr] ∧
    (generate_addresses sampleKD
        (UbaConfig.default.set_address_type_enabled .Lightning false) 0 "mn"
        none).map (fun b => b.get_addresses .Lightning) = .ok (some ["addr"]) := by
  constructor
  · rfl
  · rfl

/-- C3 (amended): for a seed input that is not a valid mnemonic, a failed
hex decode surfaces as the `HexDecode` error variant (through the
`#[from] hex::FromHexError` conversion), while `InvalidSeed` is raised only
when the input hex-decodes to a byte string of length other than 32; in
both cases no collection is returned. -/
theorem c3_seed_error_amended {K : Type} (KD : KeyDerivation K) (cfg : UbaConfig)
    (now : Nat) (s : String) (lab : Option String)
    (hm : KD.mnemonicToSeed s = none) :
    (hexDecodeChars (rustTrim s.toList) = none →
      generate_addresses KD cfg now s lab =
        .error (.HexDecode "Invalid character or odd length")) ∧
    (∀ bs, hexDecodeChars (rustTrim s.toList) = some bs → bs.length ≠ 32 →
      generate_addresses KD cfg now s lab =
        .error (.InvalidSeed "Private key must be 32 bytes")) := by
  constructor
  · intro hhex
    have hd : derive_master_key KD cfg s =
        .error (.HexDecode "Invalid character or odd length") := by
      simp only [derive_master_key, hm, hhex]
    simp only [generate_addresses]
    rw [hd]
    rfl
  · intro bs hbs hlen
    have hd : derive_master_key KD cfg s =
        .error (.InvalidSeed "Private key must be 32 bytes") := by
      simp only [derive_master_key, hm, hbs]
      rw [if_pos hlen]
    simp only [generate_addresses]
    rw [hd]
    rfl

/-- C3 counterexample: the input `"zz"` is neither a valid mnemonic nor
valid hex, and the call fails with `HexDecode`, not with the `InvalidSeed`
variant the claim requires. -/
theorem c3_counterexample :
    generate_addresses sampleKD UbaConfig.default 0 "zz" none =
      .error (.HexDecode "Invalid character or odd length") ∧
    ∀ m, generate_addresses sampleKD UbaConfig.default 0 "zz" none ≠
      .error (.InvalidSeed m) := by
  have h : generate_addresses sampleKD UbaConfig.default 0 "zz" none =
      .error (.HexDecode "Invalid character or odd length") := by rfl
  refine ⟨h, ?_⟩
  intro m hc
  rw [h] at hc
  simp at hc

theorem c3_witness :
    generate_addresses sampleKD UbaConfig.default 0 "zz" none =
      .error (.HexDecode "Invalid character or odd length") ∧
    generate_addresses sampleKD UbaConfig.default 0 "aabb" none =
      .error (.InvalidSeed "Private key must be 32 bytes") :=
  ⟨(c3_seed_error_amended sampleKD UbaConfig.default 0 "zz" none (by rfl)).1 (by rfl),
   (c3_seed_error_amended sampleKD UbaConfig.default 0 "aabb" none (by rfl)).2
     [170, 187] (by rfl) (by decide)⟩

theorem validate_nostr_id_ok_iff (l : List Char) :
    validate_nostr_id l = .ok () ↔
      (l.length = 64 ∧ l.all isAsciiHexDigit = true) := by
  unfold validate_nostr_id
  by_cases h1 : l.length ≠ 64
  · rw [if_pos h1]
    simp [h1]
  · rw [if_neg h1]
    push_neg at h1
    by_cases h2 : ¬ l.all isAsciiHexDigit = true
    · rw [if_pos h2]
      simp [h2]
    · rw [if_neg h2]
      push_neg at h2
      simp [h1, h2]

theorem validate_address_update_bad (a : BitcoinAddresses) (h : badCollection a) :
    ∃ m, validate_address_update a = .error (.UpdateValidation m) := by
  by_cases he : a.is_empty = true
  · exact ⟨"Updated addresses collection cannot be empty",
      by simp only [validate_address_update]; rw [if_pos he]⟩
  · by_cases hany : a.addresses.any (fun p => !p.2.isEmpty) = true
    · have h3 : a.addresses.any (fun p => p.2.any (fun s => s.trim.isEmpty)) = true := by
        rcases h with h1 | h2 | h3
        · exact absurd (by simp [BitcoinAddresses.is_empty, h1]) he
        · exfalso
          rw [List.any_eq_true] at hany
          obtain ⟨p, hp, hpe⟩ := hany
          rw [h2 p hp] at hpe
          simp at hpe
        · rw [List.any_eq_true]
          obtain ⟨p, hp, s, hs, htr⟩ := h3
          refine ⟨p, hp, ?_⟩
          rw [List.any_eq_true]
          refine ⟨s, hs, ?_⟩
          rw [htr]
          rfl
      exact ⟨"Empty address found",
        by simp only [validate_address_update]
           rw [if_neg he, if_neg (not_not_intro hany), if_pos h3]⟩
    · exact ⟨"At least one address type must contain addresses",
        by simp only [validate_address_update]; rw [if_neg he, if_pos hany]⟩

/-- C2 (amended): the pre-network `UpdateValidation` guarantee holds for
`update_uba_with_addresses` — an invalid outgoing collection (zero
families, all lists empty, or an empty/whitespace-only address) is rejected
with an empty store-operation trace.  For `update_uba`, however, the same
invalid collections are rejected only inside `NostrClient::update_addresses`,
after the relay connection and the existence check have been performed (no
publish occurs). -/
theorem c2_update_validation_amended (env : RelayEnv) (E : ExternalCrypto)
    {K : Type} (KD : KeyDerivation K) (id : String) (addrs : BitcoinAddresses)
    (relays : List String) (cfg : UbaConfig) (seed : String) (now now2 : Nat)
    (hr : validate_relay_urls env
      (if relays.isEmpty then cfg.get_relay_urls else relays) = .ok ())
    (hid : validate_nostr_id id.toList = .ok ()) :
    (badCollection addrs → ∃ m,
      update_uba_with_addresses env E id addrs relays cfg =
        (.error (.UpdateValidation m), [])) ∧
    (∀ g, generate_addresses KD cfg now seed none = .ok g →
      badCollection g →
      generate_nostr_keys_from_seed KD seed = .ok () →
      env.connectResult = .ok () → env.eventFound = .ok true →
      ∃ m, update_uba env E KD id seed relays cfg now now2 =
        (.error (.UpdateValidation m), [.derive, .connect, .existsCheck])) := by
  have hvalid : validEventIdHex id = true := by
    have hc := (validate_nostr_id_ok_iff id.toList).mp hid
    simp only [validEventIdHex, decide_eq_true_eq]
    exact hc
  constructor
  · intro hbad
    by_cases he : addrs.is_empty = true
    · refine ⟨"Updated addresses collection cannot be empty", ?_⟩
      simp only [update_uba_with_addresses]
      rw [hr, hid, if_pos he]
    · by_cases hany : addrs.addresses.any (fun p => !p.2.isEmpty) = true
      · have h3 : addrs.addresses.any (fun p => p.2.any (fun s => s.trim.isEmpty)) = true := by
          rcases hbad with h1 | h2 | h3
          · exact absurd (by simp [BitcoinAddresses.is_empty, h1]) he
          · exfalso
            rw [List.any_eq_true] at hany
            obtain ⟨p, hp, hpe⟩ := hany
            rw [h2 p hp] at hpe
            simp at hpe
          · rw [List.any_eq_true]
            obtain ⟨p, hp, s, hs, htr⟩ := h3
            refine ⟨p, hp, ?_⟩
            rw [List.any_eq_true]
            refine ⟨s, hs, ?_⟩
            rw [htr]
            rfl
        refine ⟨"Empty address found", ?_⟩
        simp only [update_uba_with_addresses]
        rw [hr, hid, if_neg he, if_neg (not_not_intro hany), if_pos h3]
      · refine ⟨"At least one address type must contain addresses", ?_⟩
        simp only [update_uba_with_addresses]
        rw [hr, hid, if_neg he, if_pos hany]
  · intro g hgen hbadg hkeys hconn hfound
    have hbadg2 : badCollection { g with created_at := now2 } := hbadg
    obtain ⟨m, hv⟩ := validate_address_update_bad { g with created_at := now2 } hbadg2
    refine ⟨m, ?_⟩
    simp only [update_uba]
    rw [hr, hid, hgen, hkeys, hconn]
    simp only [update_addresses]
    rw [if_neg (not_not_intro hvalid), hfound, hv]
    rfl

/-- C2 counterexample: `update_uba` with a configuration whose per-family
counts are all zero produces an empty outgoing collection; the call does
fail with `UpdateValidation`, but only after the relay connection and the
store existence check — the operation trace is not empty, refuting the
"no store operation is performed" part of the claim for `update_uba`. -/
theorem c2_counterexample :
    update_uba sampleEnv sampleCrypto sampleKD
      "1234567890abcdef1234567890abcdef1234567890abcdef1234567890abcdef" "mn"
      ["wss://relay.example.com"] (UbaConfig.default.set_all_counts 0) 0 0 =
      (.error (.UpdateValidation "Updated addresses collection cannot be empty"),
        [.derive, .connect, .existsCheck]) ∧
    StoreOp.connect ∈
      (update_uba sampleEnv sampleCrypto sampleKD
        "1234567890abcdef1234567890abcdef1234567890abcdef1234567890abcdef" "mn"
        ["wss://relay.example.com"] (UbaConfig.default.set_all_counts 0) 0 0).2 := by
  have h : update_uba sampleEnv sampleCrypto sampleKD
      "1234567890abcdef1234567890abcdef1234567890abcdef1234567890abcdef" "mn"
      ["wss://relay.example.com"] (UbaConfig.default.set_all_counts 0) 0 0 =
      (.error (.UpdateValidation "Updated addresses collection cannot be empty"),
        [.derive, .connect, .existsCheck]) := by rfl
  refine ⟨h, ?_⟩
  rw [h]
  simp

theorem c2_witness :
    (∃ m, update_uba_with_addresses sampleEnv sampleCrypto
        "1234567890abcdef1234567890abcdef1234567890abcdef1234567890abcdef"
        (BitcoinAddresses.new 5) ["wss://relay.example.com"] UbaConfig.default =
      (.error (.UpdateValidation m), [])) ∧
    (∃ m, update_uba sampleEnv sampleCrypto sampleKD
        "1234567890abcdef1234567890abcdef1234567890abcdef1234567890abcdef" "mn"
        ["wss://relay.example.com"] (UbaConfig.default.set_all_counts 0) 0 0 =
      (.error (.UpdateValidation m), [.derive, .connect, .existsCheck])) := by
  constructor
  · exact (c2_update_validation_amended sampleEnv sampleCrypto sampleKD
      "1234567890abcdef1234567890abcdef1234567890abcdef1234567890abcdef"
      (BitcoinAddresses.new 5) ["wss://relay.example.com"] UbaConfig.default
      "mn" 0 0 (by rfl) (by rfl)).1 (Or.inl rfl)
  · exact (c2_update_validation_amended sampleEnv sampleCrypto sampleKD
      "1234567890abcdef1234567890abcdef1234567890abcdef1234567890abcdef"
      (BitcoinAddresses.new 5) ["wss://relay.example.com"]
      (UbaConfig.default.set_all_counts 0) "mn" 0 0 (by rfl) (by rfl)).2
      { addresses := []
        metadata := some
          { label := none
            description := some "UBA generated address collection"
            xpub := none
            derivation_paths := some get_derivation_paths }
        created_at := 0
        version := 1 }
      (by rfl) (Or.inl rfl) (by rfl) rfl rfl

theorem toList_eq_nil_iff (s : String) : s.toList = [] ↔ s = "" := by
  constructor
  · intro h
    cases s
    simp_all [String.toList]
  · intro h
    simp [h]

theorem sum_utf8_ones (xs : List Char) (h : ∀ c ∈ xs, utf8Size c = 1) :
    (xs.map utf8Size).sum = xs.length := by
  induction xs with
  | nil => rfl
  | cons c rest ih =>
    simp only [List.map_cons, List.sum_cons, List.length_cons,
      h c (List.mem_cons_self _ _), ih (fun x hx => h x (List.mem_cons_of_mem _ hx))]
    omega

theorem allowed_size_one (c : Char)
    (h : isAsciiAlphanumeric c = true ∨ c = '-' ∨ c = '_') : utf8Size c = 1 := by
  rcases h with h | h | h
  · simp only [isAsciiAlphanumeric, decide_eq_true_eq] at h
    have hlt : c.toNat < 128 := by
      rcases h with ⟨_, h2⟩ | ⟨_, h2⟩ | ⟨_, h2⟩
      · have : c.toNat ≤ 57 := h2
        omega
      · have : c.toNat ≤ 122 := h2
        omega
      · have : c.toNat ≤ 90 := h2
        omega
    rw [utf8Size, if_pos hlt]
  · subst h
    decide
  · subst h
    decide

theorem byteLen_eq_length_of_allowed (l : String)
    (h : ∀ c ∈ l.toList, isAsciiAlphanumeric c = true ∨ c = '-' ∨ c = '_') :
    byteLen l = l.toList.length := by
  rw [byteLen]
  exact sum_utf8_ones l.toList (fun c hc => allowed_size_one c (h c hc))

theorem validate_label_bad_iff (l : String) :
    badLabel l ↔ ∃ m, validate_label l = .error (.InvalidLabel m) := by
  constructor
  · intro hbad
    by_cases he : l.isEmpty = true
    · exact ⟨"Label cannot be empty", by simp only [validate_label]; rw [if_pos he]⟩
    · by_cases hlen : byteLen l > 100
      · exact ⟨"Label cannot exceed 100 characters",
          by simp only [validate_label]; rw [if_neg he, if_pos hlen]⟩
      · have hfail : ∃ c ∈ l.toList,
            ¬ (isAsciiAlphanumeric c = true ∨ c = '-' ∨ c = '_') := by
          rcases hbad with h1 | h2 | h3
          · exact absurd ((String.isEmpty_iff l).mpr ((toList_eq_nil_iff l).mp h1)) he
          · by_cases hex : ∃ c ∈ l.toList,
                ¬ (isAsciiAlphanumeric c = true ∨ c = '-' ∨ c = '_')
            · exact hex
            · push_neg at hex
              exfalso
              have hb := byteLen_eq_length_of_allowed l hex
              omega
          · exact h3
        have hcond : ¬ l.toList.all
            (fun c => isAsciiAlphanumeric c ∨ c = '-' ∨ c = '_') = true := by
          rw [List.all_eq_true]
          push_neg
          obtain ⟨c, hc, hb⟩ := hfail
          refine ⟨c, hc, ?_⟩
          simpa using hb
        exact ⟨"Label can only contain alphanumeric characters, hyphens, and underscores",
          by simp only [validate_label]; rw [if_neg he, if_neg hlen, if_pos hcond]⟩
  · rintro ⟨m, hv⟩
    by_cases he : l.isEmpty = true
    · left
      rw [(String.isEmpty_iff l).mp he]
      rfl
    · by_cases hlen : byteLen l > 100
      · by_cases hex : ∃ c ∈ l.toList,
            ¬ (isAsciiAlphanumeric c = true ∨ c = '-' ∨ c = '_')
        · exact Or.inr (Or.inr hex)
        · push_neg at hex
          refine Or.inr (Or.inl ?_)
          have hb := byteLen_eq_length_of_allowed l hex
          omega
      · have hcond : ¬ l.toList.all
            (fun c => isAsciiAlphanumeric c ∨ c = '-' ∨ c = '_') = true := by
          intro hall
          have hok : validate_label l = .ok () := by
            simp only [validate_label]
            rw [if_neg he, if_neg hlen, if_neg (not_not_intro hall)]
          rw [hok] at hv
          simp at hv
        refine Or.inr (Or.inr ?_)
        rw [List.all_eq_true] at hcond
        push_neg at hcond
        obtain ⟨c, hc, hb⟩ := hcond
        refine ⟨c, hc, ?_⟩
        simpa using hb

/-- C10: with a valid relay list, `generate_with_config` rejects a supplied
label exactly when it is empty, longer than 100 characters, or contains a
character outside ASCII alphanumerics, `-` and `_`; the rejection carries
the `InvalidLabel` error and happens before any address derivation or store
operation (empty trace).  Labels within the constraints pass validation. -/
theorem c10_label_validation {K : Type} (env : RelayEnv) (E : ExternalCrypto)
    (KD : KeyDerivation K) (seed : String) (relays : List String)
    (cfg : UbaConfig) (now : Nat) (l : String)
    (hr : validate_relay_urls env
      (if relays.isEmpty then cfg.get_relay_urls else relays) = .ok ()) :
    (badLabel l ↔ ∃ m, validate_label l = .error (.InvalidLabel m)) ∧
    (badLabel l → ∃ m,
      generate_with_config env E KD seed (some l) relays cfg now =
        (.error (.InvalidLabel m), [])) := by
  refine ⟨validate_label_bad_iff l, ?_⟩
  intro hbad
  obtain ⟨m, hv⟩ := (validate_label_bad_iff l).mp hbad
  refine ⟨m, ?_⟩
  simp only [generate_with_config, hr, hv]

theorem c10_witness :
    (badLabel "my wallet" ↔
      ∃ m, validate_label "my wallet" = .error (.InvalidLabel m)) ∧
    (∃ m, generate_with_config sampleEnv sampleCrypto sampleKD "mn"
        (some "my wallet") ["wss://relay.example.com"] UbaConfig.default 0 =
      (.error (.InvalidLabel m), [])) := by
  have h := c10_label_validation sampleEnv sampleCrypto sampleKD "mn"
    ["wss://relay.example.com"] UbaConfig.default 0 "my wallet" (by rfl)
  exact ⟨h.1, h.2 (Or.inr (Or.inr ⟨' ', by decide, by decide⟩))⟩

theorem isPrefixOf_self_append (p l : List Char) : p.isPrefixOf (p ++ l) = true := by
  induction p with
  | nil => simp [List.isPrefixOf]
  | cons a rest ih => simp [List.isPrefixOf, ih]

theorem findIdx?_none_of (p : Char → Bool) (l : List Char)
    (h : ∀ c ∈ l, p c = false) : ∀ i, List.findIdx? p l i = none := by
  induction l with
  | nil => intro i; rfl
  | cons a rest ih =>
    intro i
    rw [List.findIdx?_cons, if_neg (by simp [h a (List.mem_cons_self _ _)])]
    exact ih (fun c hc => h c (List.mem_cons_of_mem _ hc)) (i + 1)

theorem findIdx?_append_first (p : Char → Bool) (pre post : List Char) (x : Char)
    (hpre : ∀ c ∈ pre, p c = false) (hx : p x = true) :
    ∀ i, List.findIdx? p (pre ++ x :: post) i = some (i + pre.length) := by
  induction pre with
  | nil =>
    intro i
    simp [List.findIdx?_cons, hx]
  | cons a rest ih =>
    intro i
    rw [List.cons_append, List.findIdx?_cons,
      if_neg (by simp [hpre a (List.mem_cons_self _ _)])]
    rw [ih (fun c hc => hpre c (List.mem_cons_of_mem _ hc)) (i + 1)]
    simp only [Option.some.injEq, List.length_cons]
    omega

theorem drop_append_cons (l1 : List Char) (x : Char) (l2 : List Char) :
    (l1 ++ x :: l2).drop (l1.length + 1) = l2 := by
  induction l1 with
  | nil => simp
  | cons a rest ih =>
    simp only [List.cons_append, List.length_cons, List.drop_succ_cons]
    exact ih

theorem splitOnChar_no_sep (c : Char) (l : List Char) (h : ∀ x ∈ l, x ≠ c) :
    splitOnChar c l = [l] := by
  induction l with
  | nil => rfl
  | cons a rest ih =>
    simp only [splitOnChar]
    rw [if_neg (h a (List.mem_cons_self _ _)),
      ih (fun x hx => h x (List.mem_cons_of_mem _ hx))]

theorem drop4_uba (x : List Char) : ("UBA:".toList ++ x).drop 4 = x := rfl

theorem hex_ne_amp (c : Char) (h : isAsciiHexDigit c = true) : c ≠ '&' := by
  intro he
  subst he
  exact absurd h (by decide)

theorem allowed_ne_amp (c : Char)
    (h : isAsciiAlphanumeric c = true ∨ c = '-' ∨ c = '_') : c ≠ '&' := by
  intro he
  subst he
  rcases h with h | h | h
  · exact absurd h (by decide)
  · exact absurd h (by decide)
  · exact absurd h (by decide)

theorem labelEq_findIdx (post : List Char) :
    List.findIdx? (· = '=') ("label=".toList ++ post) 0 = some 5 :=
  findIdx?_append_first (· = '=') "label".toList post '=' (by decide) (by decide) 0

/-- C5: round-trip of the UBA string format.  For a 64-hex identifier and
an optional label over the allowed character set (length 1..=100), parsing
the formatted string recovers exactly the identifier and the label.  The
percent-decoder is the external `urlencoding::decode`; the hypothesis
`urlDecode s.toList = some s.toList` records its documented behaviour on
percent-free input. -/
theorem c5_uba_roundtrip (urlDecode : List Char → Option (List Char)) (id : String)
    (lab : Option String)
    (hid : id.toList.length = 64 ∧ id.toList.all isAsciiHexDigit = true)
    (hlab : ∀ s, lab = some s → 1 ≤ s.toList.length ∧ s.toList.length ≤ 100 ∧
      s.toList.all (fun c => isAsciiAlphanumeric c ∨ c = '-' ∨ c = '_') = true ∧
      urlDecode s.toList = some s.toList) :
    parse_uba urlDecode (format_uba id lab) = .ok ⟨id, lab⟩ := by
  have hvid : validate_nostr_id id.toList = .ok () :=
    (validate_nostr_id_ok_iff id.toList).mpr hid
  have hampF : ∀ c ∈ id.toList, (decide (c = '&')) = false := by
    intro c hc
    have hhex : isAsciiHexDigit c = true := List.all_eq_true.mp hid.2 c hc
    simp only [decide_eq_false_iff_not]
    exact hex_ne_amp c hhex
  cases lab with
  | none =>
    have hlist : (format_uba id none).toList = "UBA:".toList ++ id.toList := by
      simp [format_uba, String.toList, String.data_append]
    simp only [parse_uba, parseUbaChars, hlist]
    rw [if_neg (not_not_intro (isPrefixOf_self_append _ _)), drop4_uba,
      findIdx?_none_of _ _ hampF 0, hvid]
    rfl
  | some s =>
    obtain ⟨-, -, hcs, hdec⟩ := hlab s rfl
    have hcs' : ∀ c ∈ s.toList, isAsciiAlphanumeric c = true ∨ c = '-' ∨ c = '_' := by
      intro c hc
      have := List.all_eq_true.mp hcs c hc
      simpa using this
    have hlist : (format_uba id (some s)).toList =
        "UBA:".toList ++ (id.toList ++ '&' :: ("label=".toList ++ s.toList)) := by
      have h1 : "&label=".toList = '&' :: "label=".toList := rfl
      simp [format_uba, String.toList, String.data_append, List.append_assoc]
    have hno : ∀ x ∈ "label=".toList ++ s.toList, x ≠ '&' := by
      have hfixed : ∀ x ∈ "label=".toList, x ≠ '&' := by decide
      intro x hx
      rcases List.mem_append.mp hx with hx | hx
      · exact hfixed x hx
      · exact allowed_ne_amp x (hcs' x hx)
    have hkey : ("label=".toList ++ s.toList).take 5 = "label".toList := rfl
    have hval : ("label=".toList ++ s.toList).drop (5 + 1) = s.toList := rfl
    simp only [parse_uba, parseUbaChars, hlist]
    rw [if_neg (not_not_intro (isPrefixOf_self_append _ _)), drop4_uba,
      findIdx?_append_first (· = '&') id.toList ("label=".toList ++ s.toList) '&'
        hampF (by decide) 0]
    simp only [Nat.zero_add]
    rw [List.take_left, drop_append_cons]
    simp only [parse_query_params]
    rw [splitOnChar_no_sep _ _ hno]
    simp only [queryScan]
    simp only [labelEq_findIdx, hkey, hval, hdec, hvid]
    rfl

theorem c5_witness :
    parse_uba sampleDecode (format_uba
      "1234567890abcdef1234567890abcdef1234567890abcdef1234567890abcdef"
      (some "my-wallet")) =
      .ok ⟨"1234567890abcdef1234567890abcdef1234567890abcdef1234567890abcdef",
        some "my-wallet"⟩ :=
  c5_uba_roundtrip sampleDecode _ _ ⟨by decide, by decide⟩
    (fun s hs => by
      cases hs
      exact ⟨by decide, by decide, by decide, rfl⟩)

theorem takeWhile_no_sep (c : Char) (l : List Char) (h : ∀ x ∈ l, x ≠ c) :
    l.takeWhile (· ≠ c) = l := by
  induction l with
  | nil => rfl
  | cons a rest ih =>
    rw [List.takeWhile_cons]
    rw [if_pos (by simp [h a (List.mem_cons_self _ _)])]
    rw [ih (fun x hx => h x (List.mem_cons_of_mem _ hx))]

theorem dropWhile_no_sep (c : Char) (l : List Char) (h : ∀ x ∈ l, x ≠ c) :
    l.dropWhile (· ≠ c) = [] := by
  induction l with
  | nil => rfl
  | cons a rest ih =>
    rw [List.dropWhile_cons]
    rw [if_pos (by simp [h a (List.mem_cons_self _ _)])]
    exact ih (fun x hx => h x (List.mem_cons_of_mem _ hx))

theorem takeWhile_until (c : Char) (pre post : List Char)
    (h : ∀ x ∈ pre, x ≠ c) :
    (pre ++ c :: post).takeWhile (· ≠ c) = pre := by
  induction pre with
  | nil => simp [List.takeWhile_cons]
  | cons a rest ih =>
    rw [List.cons_append, List.takeWhile_cons]
    rw [if_pos (by simp [h a (List.mem_cons_self _ _)])]
    rw [ih (fun x hx => h x (List.mem_cons_of_mem _ hx))]

theorem dropWhile_until (c : Char) (pre post : List Char)
    (h : ∀ x ∈ pre, x ≠ c) :
    (pre ++ c :: post).dropWhile (· ≠ c) = c :: post := by
  induction pre with
  | nil => simp [List.dropWhile_cons]
  | cons a rest ih =>
    rw [List.cons_append, List.dropWhile_cons]
    rw [if_pos (by simp [h a (List.mem_cons_self _ _)])]
    exact ih (fun x hx => h x (List.mem_cons_of_mem _ hx))

theorem exists_first_amp (l : List Char) (h : ∃ x ∈ l, x = '&') :
    ∃ pre post, l = pre ++ '&' :: post ∧ ∀ x ∈ pre, x ≠ '&' := by
  induction l with
  | nil => simp at h
  | cons a rest ih =>
    by_cases ha : a = '&'
    · exact ⟨[], rest, by rw [ha]; rfl, by simp⟩
    · have hrest : ∃ x ∈ rest, x = '&' := by
        obtain ⟨x, hx, hxeq⟩ := h
        rcases List.mem_cons.mp hx with h1 | h1
        · exact absurd (h1 ▸ hxeq) ha
        · exact ⟨x, h1, hxeq⟩
      obtain ⟨pre, post, heq, hpre⟩ := ih hrest
      refine ⟨a :: pre, post, by rw [List.cons_append, heq], ?_⟩
      intro x hx
      rcases List.mem_cons.mp hx with h1 | h1
      · rw [h1]; exact ha
      · exact hpre x h1

theorem validate_nostr_id_bad (l : List Char)
    (h : ¬ (l.length = 64 ∧ l.all isAsciiHexDigit = true)) :
    ∃ m, validate_nostr_id l = .error (.InvalidUbaFormat m) := by
  unfold validate_nostr_id
  by_cases h1 : l.length ≠ 64
  · exact ⟨_, by rw [if_pos h1]⟩
  · push_neg at h1
    have h2 : ¬ l.all isAsciiHexDigit = true := fun hall => h ⟨h1, hall⟩
    exact ⟨_, by rw [if_neg (not_not_intro h1), if_pos h2]⟩

theorem queryScan_none (urlDecode : List Char → Option (List Char))
    (ps : List (List Char)) (h : firstLabelValue ps = none) :
    queryScan urlDecode ps = .ok none := by
  induction ps with
  | nil => rfl
  | cons pair rest ih =>
    rw [queryScan]
    rw [firstLabelValue] at h
    cases hf : pair.findIdx? (· = '=') with
    | none =>
      rw [hf] at h
      exact ih h
    | some i =>
      rw [hf] at h
      have h2 : (if List.take i pair = "label".toList then
          some (List.drop (i + 1) pair) else firstLabelValue rest) = none := h
      show (if List.take i pair = "label".toList then
          (match urlDecode (List.drop (i + 1) pair) with
            | some decoded => Except.ok (some decoded)
            | none => Except.error (UbaError.InvalidUbaFormat
                "Invalid URL encoding in label"))
        else queryScan urlDecode rest) = Except.ok none
      by_cases hk : List.take i pair = "label".toList
      · rw [if_pos hk] at h2
        simp at h2
      · rw [if_neg hk] at h2
        rw [if_neg hk]
        exact ih h2

theorem queryScan_some (urlDecode : List Char → Option (List Char))
    (ps : List (List Char)) (v : List Char) (h : firstLabelValue ps = some v) :
    queryScan urlDecode ps =
      match urlDecode v with
      | some d => .ok (some d)
      | none => .error (.InvalidUbaFormat "Invalid URL encoding in label") := by
  induction ps with
  | nil => simp [firstLabelValue] at h
  | cons pair rest ih =>
    rw [queryScan]
    rw [firstLabelValue] at h
    cases hf : pair.findIdx? (· = '=') with
    | none =>
      rw [hf] at h
      exact ih h
    | some i =>
      rw [hf] at h
      have h2 : (if List.take i pair = "label".toList then
          some (List.drop (i + 1) pair) else firstLabelValue rest) = some v := h
      show (if List.take i pair = "label".toList then
          (match urlDecode (List.drop (i + 1) pair) with
            | some decoded => Except.ok (some decoded)
            | none => Except.error (UbaError.InvalidUbaFormat
                "Invalid URL encoding in label"))
        else queryScan urlDecode rest) =
        match urlDecode v with
        | some d => Except.ok (some d)
        | none => Except.error (UbaError.InvalidUbaFormat
            "Invalid URL encoding in label")
      by_cases hk : List.take i pair = "label".toList
      · rw [if_pos hk] at h2
        rw [if_pos hk]
        cases h2
        rfl
      · rw [if_neg hk] at h2
        rw [if_neg hk]
        exact ih h2

theorem isPrefixOf_exists (p : List Char) : ∀ l, p.isPrefixOf l = true →
    ∃ t, l = p ++ t := by
  induction p with
  | nil => exact fun l _ => ⟨l, rfl⟩
  | cons a ps ih =>
    intro l h
    cases l with
    | nil => simp [List.isPrefixOf] at h
    | cons b ls =>
      simp only [List.isPrefixOf, Bool.and_eq_true, beq_iff_eq] at h
      obtain ⟨hab, hrest⟩ := h
      obtain ⟨t, ht⟩ := ih ls hrest
      exact ⟨t, by rw [List.cons_append, ← hab, ht]⟩

/-- C6: `parse_uba` fails exactly when the `UBA:` prefix is absent, the
identifier segment (the text before the first `&`) is not 64 hex
characters, or the first `label` parameter's value fails percent-decoding;
parameters with other keys never cause rejection (they do not appear in
the failure condition), and every failure is `InvalidUbaFormat`.  Parsing
is a pure function of its input (no I/O by construction). -/
theorem c6_parse_error_characterization (urlDecode : List Char → Option (List Char))
    (uba : String) :
    ((∃ e, parse_uba urlDecode uba = .error e) ↔
      ("UBA:".toList.isPrefixOf uba.toList = false ∨
        ¬ ((idSegment uba).length = 64 ∧ (idSegment uba).all isAsciiHexDigit = true) ∨
        ∃ v, firstLabelValue (queryPairs uba) = some v ∧ urlDecode v = none)) ∧
    (∀ e, parse_uba urlDecode uba = .error e → ∃ m, e = .InvalidUbaFormat m) := by
  by_cases hp : "UBA:".toList.isPrefixOf uba.toList = true
  case neg =>
    have hres : parse_uba urlDecode uba =
        .error (.InvalidUbaFormat "UBA string must start with UBA:") := by
      simp only [parse_uba, parseUbaChars]
      rw [if_pos hp]
    constructor
    · exact iff_of_true ⟨_, hres⟩ (Or.inl (eq_false_of_ne_true hp))
    · intro e he
      rw [hres] at he
      injection he with h2
      exact ⟨_, h2.symm⟩
  case pos =>
    obtain ⟨rest, huba⟩ := isPrefixOf_exists _ _ hp
    have hdropu : uba.toList.drop 4 = rest := by rw [huba]; exact drop4_uba rest
    have hidseg : idSegment uba = rest.takeWhile (· ≠ '&') := by
      rw [idSegment, hdropu]
    by_cases hamp : ∃ x ∈ rest, x = '&'
    case neg =>
      have hall : ∀ x ∈ rest, x ≠ '&' := by
        intro x hx hxe
        exact hamp ⟨x, hx, hxe⟩
      have hfind : List.findIdx? (· = '&') rest 0 = none :=
        findIdx?_none_of _ _ (fun c hc => decide_eq_false (hall c hc)) 0
      have hseg : idSegment uba = rest := by
        rw [hidseg]
        exact takeWhile_no_sep _ _ hall
      have hq : queryPairs uba = [] := by
        simp only [queryPairs]
        rw [hdropu, dropWhile_no_sep _ _ hall]
      have hpc : parseUbaChars urlDecode uba.toList =
          (match validate_nostr_id rest with
            | .error e => .error e
            | .ok () => .ok (rest, none)) := by
        simp only [parseUbaChars]
        rw [if_neg (not_not_intro hp), hdropu, hfind]
      by_cases hv : rest.length = 64 ∧ rest.all isAsciiHexDigit = true
      · have hvok : validate_nostr_id rest = .ok () :=
          (validate_nostr_id_ok_iff rest).mpr hv
        have hres : parse_uba urlDecode uba = .ok ⟨String.mk rest, none⟩ := by
          simp only [parse_uba]
          rw [hpc, hvok]
          rfl
        constructor
        · apply iff_of_false
          · rintro ⟨e, he⟩
            rw [hres] at he
            simp at he
          · rintro (h | h | h)
            · exact Bool.noConfusion (hp.symm.trans h)
            · rw [hseg] at h
              exact h hv
            · rw [hq] at h
              obtain ⟨v, hv', -⟩ := h
              simp [firstLabelValue] at hv'
        · intro e he
          rw [hres] at he
          simp at he
      · obtain ⟨m, hverr⟩ := validate_nostr_id_bad rest hv
        have hres : parse_uba urlDecode uba = .error (.InvalidUbaFormat m) := by
          simp only [parse_uba]
          rw [hpc, hverr]
        constructor
        · exact iff_of_true ⟨_, hres⟩ (Or.inr (Or.inl (by rw [hseg]; exact hv)))
        · intro e he
          rw [hres] at he
          injection he with h2
          exact ⟨_, h2.symm⟩
    case pos =>
      obtain ⟨pre, post, heqr, hpre⟩ := exists_first_amp rest hamp
      have hpreF : ∀ c ∈ pre, (decide (c = '&')) = false :=
        fun c hc => decide_eq_false (hpre c hc)
      have hfind : List.findIdx? (· = '&') rest 0 = some pre.length := by
        rw [heqr]
        simpa using findIdx?_append_first (· = '&') pre post '&' hpreF (by decide) 0
      have htake : rest.take pre.length = pre := by
        rw [heqr]
        exact List.take_left _ _
      have hdropr : rest.drop (pre.length + 1) = post := by
        rw [heqr]
        exact drop_append_cons _ _ _
      have hseg : idSegment uba = pre := by
        rw [hidseg, heqr]
        exact takeWhile_until _ _ _ hpre
      have hq : queryPairs uba = splitOnChar '&' post := by
        simp only [queryPairs]
        rw [hdropu, heqr, dropWhile_until _ _ _ hpre]
      have hpc : parseUbaChars urlDecode uba.toList =
          (match queryScan urlDecode (splitOnChar '&' post) with
            | .error e => .error e
            | .ok label =>
              match validate_nostr_id pre with
              | .error e => .error e
              | .ok () => .ok (pre, label)) := by
        simp only [parseUbaChars]
        rw [if_neg (not_not_intro hp), hdropu, hfind]
        show (match parse_query_params urlDecode (rest.drop (pre.length + 1)) with
            | Except.error e => Except.error e
            | Except.ok label =>
              match validate_nostr_id (rest.take pre.length) with
              | Except.error e => Except.error e
              | Except.ok () => Except.ok (rest.take pre.length, label)) =
          (match queryScan urlDecode (splitOnChar '&' post) with
            | Except.error e => Except.error e
            | Except.ok label =>
              match validate_nostr_id pre with
              | Except.error e => Except.error e
              | Except.ok () => Except.ok (pre, label))
        rw [htake, hdropr]
        rfl
      cases hfl : firstLabelValue (splitOnChar '&' post) with
      | none =>
        have hqs : queryScan urlDecode (splitOnChar '&' post) = .ok none :=
          queryScan_none urlDecode _ hfl
        by_cases hv : pre.length = 64 ∧ pre.all isAsciiHexDigit = true
        · have hvok : validate_nostr_id pre = .ok () :=
            (validate_nostr_id_ok_iff pre).mpr hv
          have hres : parse_uba urlDecode uba = .ok ⟨String.mk pre, none⟩ := by
            simp only [parse_uba]
            rw [hpc, hqs, hvok]
            rfl
          constructor
          · apply iff_of_false
            · rintro ⟨e, he⟩
              rw [hres] at he
              simp at he
            · rintro (h | h | h)
              · exact Bool.noConfusion (hp.symm.trans h)
              · rw [hseg] at h
                exact h hv
              · rw [hq] at h
                obtain ⟨v, hv', -⟩ := h
                rw [hfl] at hv'
                simp at hv'
          · intro e he
            rw [hres] at he
            simp at he
        · obtain ⟨m, hverr⟩ := validate_nostr_id_bad pre hv
          have hres : parse_uba urlDecode uba = .error (.InvalidUbaFormat m) := by
            simp only [parse_uba]
            rw [hpc, hqs, hverr]
          constructor
          · exact iff_of_true ⟨_, hres⟩ (Or.inr (Or.inl (by rw [hseg]; exact hv)))
          · intro e he
            rw [hres] at he
            injection he with h2
            exact ⟨_, h2.symm⟩
      | some v =>
        cases hdec : urlDecode v with
        | none =>
          have hqs : queryScan urlDecode (splitOnChar '&' post) =
              .error (.InvalidUbaFormat "Invalid URL encoding in label") := by
            rw [queryScan_some urlDecode _ v hfl, hdec]
          have hres : parse_uba urlDecode uba =
              .error (.InvalidUbaFormat "Invalid URL encoding in label") := by
            simp only [parse_uba]
            rw [hpc, hqs]
          constructor
          · refine iff_of_true ⟨_, hres⟩ (Or.inr (Or.inr ⟨v, ?_, hdec⟩))
            rw [hq]
            exact hfl
          · intro e he
            rw [hres] at he
            injection he with h2
            exact ⟨_, h2.symm⟩
        | some d =>
          have hqs : queryScan urlDecode (splitOnChar '&' post) = .ok (some d) := by
            rw [queryScan_some urlDecode _ v hfl, hdec]
          by_cases hv2 : pre.length = 64 ∧ pre.all isAsciiHexDigit = true
          · have hvok : validate_nostr_id pre = .ok () :=
              (validate_nostr_id_ok_iff pre).mpr hv2
            have hres : parse_uba urlDecode uba =
                .ok ⟨String.mk pre, some (String.mk d)⟩ := by
              simp only [parse_uba]
              rw [hpc, hqs, hvok]
              rfl
            constructor
            · apply iff_of_false
              · rintro ⟨e, he⟩
                rw [hres] at he
                simp at he
              · rintro (h | h | h)
                · exact Bool.noConfusion (hp.symm.trans h)
                · rw [hseg] at h
                  exact h hv2
                · rw [hq] at h
                  obtain ⟨v', hv', hdec'⟩ := h
                  rw [hfl] at hv'
                  injection hv' with hv''
                  rw [← hv''] at hdec'
                  rw [hdec] at hdec'
                  simp at hdec'
            · intro e he
              rw [hres] at he
              simp at he
          · obtain ⟨m, hverr⟩ := validate_nostr_id_bad pre hv2
            have hres : parse_uba urlDecode uba = .error (.InvalidUbaFormat m) := by
              simp only [parse_uba]
              rw [hpc, hqs, hverr]
            constructor
            · exact iff_of_true ⟨_, hres⟩
                (Or.inr (Or.inl (by rw [hseg]; exact hv2)))
            · intro e he
              rw [hres] at he
              injection he with h2
              exact ⟨_, h2.symm⟩

theorem c6_witness :
    (∃ e, parse_uba sampleDecode "UBA:zz" = .error e) ∧
    (∀ e, parse_uba sampleDecode "UBA:zz" = .error e →
      ∃ m, e = .InvalidUbaFormat m) :=
  ⟨(c6_parse_error_characterization sampleDecode "UBA:zz").1.mpr
      (Or.inr (Or.inl (by decide))),
    (c6_parse_error_characterization sampleDecode "UBA:zz").2⟩
